import Mathlib

/-!
Verification of the hyper-parameter raster inference engine of `bayesloop`
(`bayesloop/rasterStudy.py`), via a shallow embedding of `RasterStudy.fit`,
`RasterStudy.parallelFit` and the marginalization performed by
`RasterStudy.plotHyperParameterDistribution`.

Numpy arrays of reals are modelled as `List ℝ` (one-dimensional data) or as
functions `ℕ → ℝ` / `ℕ → ℕ → ℝ` (per-time-step arrays and posterior
sequences, indexed by time step and flattened parameter-grid cell).
Floating-point arithmetic is modelled by exact real arithmetic.

The single-hyper-parameter-point filtering routine (`Study.fit`), the
consistency check (`Study.checkConsistency`) and the parameter grid live in
`study.py`, which is an external collaborator of the raster engine; they are
abstracted as parameters (`runFit`, `checkConsistency`, `gridCells`).
-/

noncomputable section

/-- One entry of the `raster` argument of `RasterStudy.fit`:
`[name, lower, upper, steps]`. -/
structure RasterDim where
  name : String
  lower : ℝ
  upper : ℝ
  steps : ℕ

instance : Inhabited RasterDim := ⟨⟨"", 0, 0, 0⟩⟩

/-- Embedding of `np.linspace(lower, upper, num)`: `num` evenly spaced values from `lower`
to `upper` inclusive.  (For `num = 1` the factor `i = 0` makes the term with
the zero denominator vanish, matching numpy's single-element result
`[lower]`.) -/
def linspace (lower upper : ℝ) (num : ℕ) : List ℝ :=
  (List.range num).map fun i : ℕ => lower + (i : ℝ) * (upper - lower) / ((num : ℝ) - 1)

/-- Cartesian product of a list of axes with the first axis varying slowest,
as produced by `np.meshgrid(*axes, indexing='ij')` followed by
`np.array([t.ravel() for t in temp]).T`. -/
def cartProd : List (List ℝ) → List (List ℝ)
  | [] => [[]]
  | xs :: rest => (xs.map fun x => (cartProd rest).map fun p => x :: p).flatten

/-- The attribute `self.rasterValues` as built by `fit` for a regular raster. -/
def rasterValuesOf (raster : List RasterDim) : List (List ℝ) :=
  cartProd (raster.map fun d => linspace d.lower d.upper d.steps)

/-- The attribute `self.rasterConstant`: per-dimension spacing constants
`np.abs(upper-lower)/(float(steps)-1)`. -/
def rasterConstantOf (raster : List RasterDim) : List ℝ :=
  raster.map fun d => |d.upper - d.lower| / ((d.steps : ℝ) - 1)

/-- The spacing-constant computation of `fit` with its division checked:
`none` models the IEEE non-finite value (`inf`/`nan`) that the unguarded
division `np.abs(upper-lower)/(float(steps)-1)` produces when the denominator
`float(steps) - 1` is zero, i.e. when `steps = 1`. -/
def spacingConstantChecked (d : RasterDim) : Option ℝ :=
  if d.steps = 1 then none else some (|d.upper - d.lower| / ((d.steps : ℝ) - 1))

/-- The uniform hyper-parameter prior
`np.ones(len(rasterValues))/len(rasterValues)`. -/
def uniformPrior (n : ℕ) : List ℝ :=
  List.replicate n (1 / (n : ℝ))

/-- One element of the `prior` argument of `fit`: a SymPy random variable,
modelled by its probability density function together with the result of the
free-symbol check `len(list(rv._sorted_args[0].distribution.free_symbols)) > 0`. -/
structure PriorSpec where
  pdf : ℝ → ℝ
  hasFreeSymbols : Bool

instance : Inhabited PriorSpec := ⟨⟨fun _ => 0, false⟩⟩

/-- The prior-evaluation loop of `fit`: starting from
`hyperParameterPrior = np.ones(n)` (`acc`), multiply in
`pdf(rasterValues[:, i])` for each supplied density in turn, aborting (flag
`false`) as soon as a density with free parameters is met.  Returns the
accumulated per-point products together with the success flag. -/
def applyDensities (pts : List (List ℝ)) : List PriorSpec → ℕ → List ℝ → List ℝ × Bool
  | [], _, acc => (acc, true)
  | d :: ds, i, acc =>
      if d.hasFreeSymbols then (acc, false)
      else applyDensities pts ds (i + 1)
        ((acc.zip pts).map fun ax => ax.1 * d.pdf (ax.2.getD i 0))

/-- Renormalization `self.hyperParameterPrior /= np.sum(self.hyperParameterPrior)`. -/
def normalizedPrior (raw : List ℝ) : List ℝ :=
  raw.map fun x => x / raw.sum

/-- Model of `np.max` over a nonempty array (`0` on the empty list, which scipy's
`logsumexp` never meets in `fit`). -/
def listMax : List ℝ → ℝ
  | [] => 0
  | [x] => x
  | x :: y :: xs => max x (listMax (y :: xs))

/-- Embedding of `scipy.misc.logsumexp`: shift by the maximum, exponentiate, sum, take the
logarithm and shift back. -/
def logsumexp (a : List ℝ) : ℝ :=
  Real.log ((a.map fun x => Real.exp (x - listMax a)).sum) + listMax a

/-- The elementwise vector `logEvidence_i + log(prior_i)`
(`np.array(self.logEvidenceList) + np.log(self.hyperParameterPrior)`). -/
def logHPDOf (logEvidenceList hyperParameterPrior : List ℝ) : List ℝ :=
  (logEvidenceList.zip hyperParameterPrior).map fun lq => lq.1 + Real.log lq.2

/-- Line 212 of `rasterStudy.py`:
`self.logEvidence = logsumexp(np.array(self.logEvidenceList) + np.log(self.hyperParameterPrior))`. -/
def logEvidenceOf (logEvidenceList hyperParameterPrior : List ℝ) : ℝ :=
  logsumexp (logHPDOf logEvidenceList hyperParameterPrior)

/-- Line 218 of `rasterStudy.py`: subtract the mean (`np.mean`) of the
vector from each of its entries. -/
def scaledBy (v : List ℝ) : List ℝ :=
  v.map fun x => x - v.sum / (v.length : ℝ)

/-- Lines 217-221 of `rasterStudy.py`: the hyper-parameter posterior density,
obtained from `logEvidence_i + log(prior_i)` by subtracting the mean,
exponentiating, normalizing to total mass one and dividing by the product of
the spacing constants. -/
def hyperParameterDistributionOf (logEvidenceList hyperParameterPrior rasterConstant : List ℝ) :
    List ℝ :=
  let e := (scaledBy (logHPDOf logEvidenceList hyperParameterPrior)).map Real.exp
  (e.map fun x => x / e.sum).map fun x => x / rasterConstant.prod

/-- The result of one single-hyper-parameter-point run of the external
filtering routine `Study.fit`: the scalar log-evidence, the per-time-step
local evidence and the posterior sequence (time step × flattened
parameter-grid cell). -/
structure FitResult where
  logEvidence : ℝ
  localEvidence : ℕ → ℝ
  posteriorSequence : ℕ → ℕ → ℝ

/-- The mutable loop state of the sweep of `fit` (lines 178-193) and of
`parallelFit` (lines 282-296): the accumulated evidence lists and the
average-posterior accumulator. -/
structure SweepState where
  logEvidenceList : List ℝ
  localEvidenceList : List (ℕ → ℝ)
  averagePosteriorSequence : ℕ → ℕ → ℝ

/-- The sweep state of a fresh sweep: empty evidence lists and the zero
accumulator `np.zeros([len(formattedData)] + gridSize)`. -/
def initSweepState : SweepState :=
  { logEvidenceList := []
    localEvidenceList := []
    averagePosteriorSequence := fun _ _ => 0 }

/-- One iteration of the sweep loop: append the point's log-evidence and
local evidence, and (unless in evidence-only mode) add
`posterior * exp(logEvidence - logEvidenceList[0]) * prior_i` to the
average-posterior accumulator. -/
def sweepStep (evidenceOnly : Bool) (st : SweepState) (rp : FitResult × ℝ) : SweepState :=
  let L := st.logEvidenceList ++ [rp.1.logEvidence]
  { logEvidenceList := L
    localEvidenceList := st.localEvidenceList ++ [rp.1.localEvidence]
    averagePosteriorSequence :=
      if evidenceOnly then st.averagePosteriorSequence
      else fun t g =>
        st.averagePosteriorSequence t g +
          rp.1.posteriorSequence t g * Real.exp (rp.1.logEvidence - L.headD 0) * rp.2 }

/-- The sweep loop over a list of per-point results paired with their prior
weights. -/
def sweepGo (evidenceOnly : Bool) (rs : List (FitResult × ℝ)) (st : SweepState) : SweepState :=
  rs.foldl (sweepStep evidenceOnly) st

/-- The single-process sweep of `fit` (lines 178-193): run the filtering
routine at every grid point in order, zipped with the hyper-parameter prior. -/
def sweepRun (evidenceOnly : Bool) (runFit : List ℝ → FitResult)
    (pts : List (List ℝ)) (hyperParameterPrior : List ℝ) : SweepState :=
  sweepGo evidenceOnly ((pts.map runFit).zip hyperParameterPrior) initSweepState

/-- The shard sizes of `np.array_split(arr, n)` for an array of length `l`:
`l % n` sections of size `l / n + 1` followed by `n - l % n` sections of size
`l / n`. -/
def splitSizes (l n : ℕ) : List ℕ :=
  (List.range n).map fun i => if i < l % n then l / n + 1 else l / n

/-- Cut a list into contiguous pieces of the given sizes. -/
def chop : List ℕ → List α → List (List α)
  | [], _ => []
  | s :: ss, xs => xs.take s :: chop ss (xs.drop s)

/-- `np.array_split(xs, n)`: `n` contiguous shards of as-equal-as-possible
sizes. -/
def arraySplit (xs : List α) (n : ℕ) : List (List α) :=
  chop (splitSizes xs.length n) xs

/-- Merging one sub-study into the totals (lines 171-175 of
`rasterStudy.py`): concatenate the evidence lists and, unless in
evidence-only mode, add the average-posterior accumulators elementwise. -/
def mergeSub (evidenceOnly : Bool) (acc S : SweepState) : SweepState :=
  { logEvidenceList := acc.logEvidenceList ++ S.logEvidenceList
    localEvidenceList := acc.localEvidenceList ++ S.localEvidenceList
    averagePosteriorSequence :=
      if evidenceOnly then acc.averagePosteriorSequence
      else fun t g => acc.averagePosteriorSequence t g + S.averagePosteriorSequence t g }

/-- The parallel path of `fit` (lines 158-175) together with `parallelFit`
(lines 278-299): split the grid points and the prior into `nJobs` contiguous
shards, sweep each shard independently from a fresh sweep state, and merge
the sub-studies in shard order. -/
def parallelRun (evidenceOnly : Bool) (runFit : List ℝ → FitResult)
    (pts : List (List ℝ)) (hyperParameterPrior : List ℝ) (nJobs : ℕ) : SweepState :=
  (((arraySplit pts nJobs).zip (arraySplit hyperParameterPrior nJobs)).map
    fun sh => sweepGo evidenceOnly ((sh.1.map runFit).zip sh.2) initSweepState).foldl
    (mergeSub evidenceOnly) initSweepState

/-- Lines 198-203 of `rasterStudy.py`: divide the average-posterior
accumulator at every time step by the total mass
`np.sum(posterior)` of that time step, over a parameter grid with
`gridCells` (flattened) cells. -/
def normalizeAPS (gridCells : ℕ) (aps : ℕ → ℕ → ℝ) : ℕ → ℕ → ℝ :=
  fun t g => aps t g / ∑ j ∈ Finset.range gridCells, aps t j

/-- Line 227 of `rasterStudy.py`: the local evidence of the average model,
the per-time-step sum of the per-point local evidences weighted by the
hyper-parameter distribution. -/
def localEvidenceOf (localEvidenceList : List (ℕ → ℝ)) (hpd : List ℝ) : ℕ → ℝ :=
  fun t => ((localEvidenceList.zip hpd).map fun lq => lq.1 t * lq.2).sum

/-- The index along axis `p` of the flat (C-order) index `i` in an array of
the given shape, as used by `reshape(rasterSteps, order='C')`. -/
def axisIndex (shape : List ℕ) (p i : ℕ) : ℕ :=
  i / (shape.drop (p + 1)).prod % shape.getD p 0

/-- The marginalization of `plotHyperParameterDistribution` (lines 341-351):
reshape the flat hyper-parameter density to the raster shape in C order, sum
over all axes other than `p`, and multiply by the product of the marginalized
axes' spacing constants. -/
def marginalDistribution (shape : List ℕ) (dist rc : List ℝ) (p : ℕ) : List ℝ :=
  (List.range (shape.getD p 0)).map fun k =>
    (∑ i ∈ (Finset.range dist.length).filter fun i => axisIndex shape p i = k, dist.getD i 0)
      * ∏ d ∈ (Finset.range rc.length).erase p, rc.getD d 0

/-- The instance attributes of a `RasterStudy` object touched by `fit`. -/
structure StudyState where
  raster : List RasterDim
  rasterValues : List (List ℝ)
  rasterConstant : List ℝ
  hyperParameterPrior : Option (List ℝ)
  hyperParameterDistribution : Option (List ℝ)
  averagePosteriorSequence : ℕ → ℕ → ℝ
  logEvidenceList : List ℝ
  localEvidenceList : List (ℕ → ℝ)
  logEvidence : ℝ
  localEvidence : ℕ → ℝ
  posteriorSequence : Option (ℕ → ℕ → ℝ)

/-- The configuration failures that make `fit` return early with only an
informational message. -/
inductive ConfigError where
  | emptyRasterAttr
  | emptyRasterValues
  | emptyRasterConstant
  | priorLengthMismatch
  | priorFreeParameters
  | consistencyFailure
deriving DecidableEq

/-- How a call of `RasterStudy.fit` ended: delegated to the plain
`Study.fit` (no raster), aborted on a configuration error, or ran the full
raster sweep. -/
inductive FitOutcome where
  | delegated (forwardOnly evidenceOnly silent : Bool)
  | aborted (e : ConfigError)
  | completed

/-- The observable result of a call of `RasterStudy.fit`: the new instance
state, how the call ended, and how many times the external single-point
filtering routine `Study.fit` was invoked. -/
structure FitReturn where
  state : StudyState
  outcome : FitOutcome
  filterCalls : ℕ

/-- The tail of `fit` after a successful consistency check (lines 146-248):
run the sweep (in parallel when `nJobs > 1` and `pathos` is importable),
normalize the average posterior sequence, and compute the aggregate
log-evidence, hyper-parameter distribution and local evidence.  Finally the
prior and the per-point evidence lists are cleared. -/
def fitSweepPhase (runFit : List ℝ → FitResult) (pathosAvailable : Bool) (gridCells : ℕ)
    (s : StudyState) (hp : List ℝ) (evidenceOnly : Bool) (nJobs : ℕ) : FitReturn :=
  let sw :=
    if 1 < nJobs ∧ pathosAvailable then parallelRun evidenceOnly runFit s.rasterValues hp nJobs
    else sweepRun evidenceOnly runFit s.rasterValues hp
  let aps :=
    if evidenceOnly then s.averagePosteriorSequence
    else normalizeAPS gridCells sw.averagePosteriorSequence
  let hpd := hyperParameterDistributionOf sw.logEvidenceList hp s.rasterConstant
  { state :=
      { s with
        averagePosteriorSequence := aps
        posteriorSequence := if evidenceOnly then s.posteriorSequence else some aps
        logEvidence := logEvidenceOf sw.logEvidenceList hp
        hyperParameterDistribution := some hpd
        localEvidence := localEvidenceOf sw.localEvidenceList hpd
        hyperParameterPrior := none
        logEvidenceList := []
        localEvidenceList := [] }
    outcome := .completed
    filterCalls := s.rasterValues.length }

/-- Lines 134-144 of `rasterStudy.py`, after the prior has been determined:
reset the average-posterior accumulator (unless in evidence-only mode) and
the per-point evidence lists, then abort on a failed consistency check or
proceed to the sweep. -/
def fitConsistencyPhase (runFit : List ℝ → FitResult)
    (checkConsistency pathosAvailable : Bool) (gridCells : ℕ) (s : StudyState)
    (hp : List ℝ) (evidenceOnly : Bool) (nJobs : ℕ) : FitReturn :=
  if !checkConsistency then
    { state :=
        { s with
          averagePosteriorSequence :=
            if evidenceOnly then s.averagePosteriorSequence else fun _ _ => 0
          logEvidenceList := []
          localEvidenceList := [] }
      outcome := .aborted .consistencyFailure
      filterCalls := 0 }
  else
    fitSweepPhase runFit pathosAvailable gridCells
      { s with
        averagePosteriorSequence :=
          if evidenceOnly then s.averagePosteriorSequence else fun _ _ => 0
        logEvidenceList := []
        localEvidenceList := [] }
      hp evidenceOnly nJobs

/-- The middle of `fit` (lines 103-144): determine the hyper-parameter prior
(uniform when no densities are supplied, otherwise the normalized per-point
product of the supplied densities), aborting on a prior length mismatch or a
density with free parameters, then continue with the consistency check. -/
def fitPriorPhase (runFit : List ℝ → FitResult) (checkConsistency pathosAvailable : Bool)
    (gridCells : ℕ) (s : StudyState) (prior : List PriorSpec)
    (evidenceOnly : Bool) (nJobs : ℕ) : FitReturn :=
  if prior.isEmpty then
    fitConsistencyPhase runFit checkConsistency pathosAvailable gridCells
      { s with hyperParameterPrior := some (uniformPrior s.rasterValues.length) }
      (uniformPrior s.rasterValues.length) evidenceOnly nJobs
  else if prior.length ≠ (s.rasterValues.headD []).length then
    { state := s, outcome := .aborted .priorLengthMismatch, filterCalls := 0 }
  else if (applyDensities s.rasterValues prior 0 (List.replicate s.rasterValues.length 1)).2 then
    fitConsistencyPhase runFit checkConsistency pathosAvailable gridCells
      { s with
        hyperParameterPrior := some (normalizedPrior
          (applyDensities s.rasterValues prior 0 (List.replicate s.rasterValues.length 1)).1) }
      (normalizedPrior
        (applyDensities s.rasterValues prior 0 (List.replicate s.rasterValues.length 1)).1)
      evidenceOnly nJobs
  else
    { state :=
        { s with
          hyperParameterPrior := some
            (applyDensities s.rasterValues prior 0 (List.replicate s.rasterValues.length 1)).1 }
      outcome := .aborted .priorFreeParameters
      filterCalls := 0 }

/-- Shallow embedding of `RasterStudy.fit`.  `runFit` is the external
single-point filtering routine `Study.fit` evaluated at the currently
selected hyper-parameter values, `checkConsistency` the outcome of the
external `Study.checkConsistency`, `pathosAvailable` whether
`pathos.multiprocessing` is importable, and `gridCells` the flattened size of
the external parameter grid. -/
def fit (runFit : List ℝ → FitResult) (checkConsistency pathosAvailable : Bool)
    (gridCells : ℕ) (s : StudyState) (raster : List RasterDim) (prior : List PriorSpec)
    (forwardOnly evidenceOnly customRaster silent : Bool) (nJobs : ℕ) : FitReturn :=
  if !customRaster then
    let s1 := { s with raster := raster }
    if raster.isEmpty then
      { state := s1, outcome := .delegated forwardOnly evidenceOnly silent, filterCalls := 1 }
    else
      fitPriorPhase runFit checkConsistency pathosAvailable gridCells
        { s1 with
          rasterValues := rasterValuesOf raster
          rasterConstant := rasterConstantOf raster }
        prior evidenceOnly nJobs
  else if s.raster.isEmpty then
    { state := s, outcome := .aborted .emptyRasterAttr, filterCalls := 0 }
  else if s.rasterValues.isEmpty then
    { state := s, outcome := .aborted .emptyRasterValues, filterCalls := 0 }
  else if s.rasterConstant.isEmpty then
    { state := s, outcome := .aborted .emptyRasterConstant, filterCalls := 0 }
  else
    fitPriorPhase runFit checkConsistency pathosAvailable gridCells s prior evidenceOnly nJobs

/-- A concrete stand-in for the external single-point filtering routine,
used to evaluate the sweep at explicit inputs: at the hyper-parameter point
`[x]` it reports log-evidence `log (1 + x)` and the one-time-step posterior
`[1 - x, x]` over a two-cell parameter grid. -/
def cexRunFit : List ℝ → FitResult := fun x =>
  { logEvidence := Real.log (1 + x.headD 0)
    localEvidence := fun _ => 0
    posteriorSequence := fun _ g => if g = 0 then 1 - x.headD 0 else x.headD 0 }

/-! ## Helper lemmas -/

lemma linspace_length (lower upper : ℝ) (num : ℕ) :
    (linspace lower upper num).length = num := by
  rw [linspace, List.length_map, List.length_range]

lemma list_sum_map_div (l : List ℝ) (c : ℝ) : (l.map fun x => x / c).sum = l.sum / c := by
  induction l with
  | nil => simp
  | cons x xs ih => simp [ih, add_div]

lemma le_listMax (l : List ℝ) : ∀ x ∈ l, x ≤ listMax l := by
  induction l with
  | nil => simp
  | cons x xs ih =>
    cases xs with
    | nil => intro z hz; simp only [List.mem_singleton] at hz; simp [listMax, hz]
    | cons y ys =>
      intro z hz
      rcases List.mem_cons.1 hz with rfl | hz'
      · exact le_max_left _ _
      · exact le_trans (ih z hz') (le_max_right _ _)

lemma logsumexp_eq_log_sum_exp (a : List ℝ) (h : a ≠ []) :
    logsumexp a = Real.log ((a.map Real.exp).sum) := by
  have hpos : 0 < (a.map Real.exp).sum := by
    refine List.sum_pos _ (fun x hx => ?_) (by simpa using h)
    obtain ⟨y, _, rfl⟩ := List.mem_map.1 hx
    exact Real.exp_pos y
  have hshift : (a.map fun x => Real.exp (x - listMax a)).sum
      = (a.map Real.exp).sum / Real.exp (listMax a) := by
    rw [← list_sum_map_div, List.map_map]
    refine congrArg List.sum (List.map_congr_left fun x _ => ?_)
    simp [Function.comp, Real.exp_sub]
  rw [logsumexp, hshift, Real.log_div hpos.ne' (Real.exp_ne_zero _), Real.log_exp]
  ring

/-! ## Claim C2: hyper-parameter posterior normalization -/

/-- Claim C2: the hyper-parameter posterior density is obtained from the
per-grid-point log-evidences and the prior by adding `log(prior_i)`,
subtracting the mean, exponentiating, normalizing the mass to one and
dividing by the product of the spacing constants (this is the definition
`hyperParameterDistributionOf`); consequently the density summed over the
grid and multiplied by the product of the spacing constants equals `1`. -/
theorem hyperParameterDistribution_integrates_to_one
    (logEvidenceList hyperParameterPrior rasterConstant : List ℝ)
    (h1 : logEvidenceList ≠ []) (h2 : hyperParameterPrior ≠ [])
    (h3 : rasterConstant.prod ≠ 0) :
    (hyperParameterDistributionOf logEvidenceList hyperParameterPrior rasterConstant).sum
      * rasterConstant.prod = 1 := by
  have hzip : logEvidenceList.zip hyperParameterPrior ≠ [] := by
    rw [Ne, List.zip_eq_nil_iff]
    push_neg
    exact ⟨h1, h2⟩
  have hene : ((scaledBy (logHPDOf logEvidenceList hyperParameterPrior)).map Real.exp) ≠ [] := by
    simpa [logHPDOf, scaledBy] using hzip
  have hepos : 0 < ((scaledBy (logHPDOf logEvidenceList hyperParameterPrior)).map Real.exp).sum := by
    refine List.sum_pos _ (fun x hx => ?_) hene
    obtain ⟨y, _, rfl⟩ := List.mem_map.1 hx
    exact Real.exp_pos y
  rw [hyperParameterDistributionOf]
  rw [list_sum_map_div, list_sum_map_div, div_self hepos.ne']
  exact one_div_mul_cancel h3

/-- Witness for C2 at the concrete input `logEvidenceList = [0]`,
`hyperParameterPrior = [1]`, `rasterConstant = [1]`. -/
theorem hyperParameterDistribution_integrates_to_one_witness :
    ([(0 : ℝ)] ≠ []) ∧ ([(1 : ℝ)] ≠ []) ∧ ([(1 : ℝ)].prod ≠ 0) ∧
      (hyperParameterDistributionOf [0] [1] [1]).sum * ([(1 : ℝ)].prod) = 1 :=
  ⟨by simp, by simp, by norm_num,
    hyperParameterDistribution_integrates_to_one [0] [1] [1] (by simp) (by simp) (by norm_num)⟩

/-! ## Claim C5: log-sum-exp aggregation of the total evidence -/

/-- Claim C5: the total log-evidence of the averaged model,
`logsumexp(logEvidenceList + log(prior))`, equals
`log(sum_i exp(logEvidence_i) * prior_i)`; moreover every term actually
exponentiated by `logsumexp` is shifted by the maximum and therefore lies in
`(0, 1]`, which is why the computation cannot overflow however far apart the
log-evidences are. -/
theorem logEvidence_logsumexp
    (logEvidenceList hyperParameterPrior : List ℝ)
    (h1 : logEvidenceList ≠ []) (h2 : hyperParameterPrior ≠ [])
    (hp : ∀ q ∈ hyperParameterPrior, 0 < q) :
    logEvidenceOf logEvidenceList hyperParameterPrior
      = Real.log (((logEvidenceList.zip hyperParameterPrior).map
          fun lq => Real.exp lq.1 * lq.2).sum)
    ∧ ∀ v ∈ logHPDOf logEvidenceList hyperParameterPrior,
        Real.exp (v - listMax (logHPDOf logEvidenceList hyperParameterPrior)) ≤ 1 := by
  have hzip : logEvidenceList.zip hyperParameterPrior ≠ [] := by
    rw [Ne, List.zip_eq_nil_iff]
    push_neg
    exact ⟨h1, h2⟩
  constructor
  · rw [logEvidenceOf, logsumexp_eq_log_sum_exp _ (by simpa [logHPDOf] using hzip)]
    congr 1
    rw [logHPDOf, List.map_map]
    refine congrArg List.sum (List.map_congr_left fun lq hlq => ?_)
    have hq : 0 < lq.2 := hp _ (List.of_mem_zip hlq).2
    simp [Function.comp, Real.exp_add, Real.exp_log hq]
  · intro v hv
    rw [Real.exp_le_one_iff]
    have := le_listMax _ v hv
    linarith

/-- Witness for C5 at the concrete input `logEvidenceList = [0]`,
`hyperParameterPrior = [1]`. -/
theorem logEvidence_logsumexp_witness :
    ([(0 : ℝ)] ≠ []) ∧ ([(1 : ℝ)] ≠ []) ∧ (∀ q ∈ [(1 : ℝ)], 0 < q) ∧
      (logEvidenceOf [0] [1]
        = Real.log ((([(0 : ℝ)].zip [(1 : ℝ)]).map fun lq => Real.exp lq.1 * lq.2).sum)
      ∧ ∀ v ∈ logHPDOf [0] [1],
          Real.exp (v - listMax (logHPDOf [0] [1])) ≤ 1) :=
  ⟨by simp, by simp, by norm_num,
    logEvidence_logsumexp [0] [1] (by simp) (by simp) (by norm_num)⟩

/-! ## Claim C10: degenerate raster dimensions divide by zero -/

/-- Claim C10: for a raster dimension with `stepCount = 1` the spacing
constant `np.abs(upper-lower)/(float(steps)-1)` is an unguarded division
whose denominator is zero, so (modelling IEEE division by zero as `none`) a
degenerate single-value dimension never yields a finite spacing constant. -/
theorem degenerate_spacing_divides_by_zero (d : RasterDim) (h : d.steps = 1) :
    ((d.steps : ℝ) - 1 = 0)
    ∧ spacingConstantChecked d = none
    ∧ rasterConstantOf [d] = [|d.upper - d.lower| / ((d.steps : ℝ) - 1)] := by
  refine ⟨by rw [h]; norm_num, by simp [spacingConstantChecked, h], rfl⟩

/-- Witness for C10 at the concrete dimension `["sigma", 0, 1, 1]`. -/
theorem degenerate_spacing_divides_by_zero_witness :
    (RasterDim.mk "sigma" 0 1 1).steps = 1
    ∧ (((RasterDim.mk "sigma" 0 1 1).steps : ℝ) - 1 = 0
      ∧ spacingConstantChecked (RasterDim.mk "sigma" 0 1 1) = none
      ∧ rasterConstantOf [RasterDim.mk "sigma" 0 1 1]
          = [|(RasterDim.mk "sigma" 0 1 1).upper - (RasterDim.mk "sigma" 0 1 1).lower|
              / (((RasterDim.mk "sigma" 0 1 1).steps : ℝ) - 1)]) :=
  ⟨rfl, degenerate_spacing_divides_by_zero _ rfl⟩

/-! ## Claim C9: empty raster delegates to the standard fit -/

/-- Claim C9: a `fit` call with `customRaster = False` and an empty raster
does not abort: it delegates once to the base single-point fit routine with
the given flags, builds no grid and computes no hyper-parameter
distribution. -/
theorem fit_empty_raster_delegates (runFit : List ℝ → FitResult)
    (cc pav : Bool) (G : ℕ) (s : StudyState) (prior : List PriorSpec)
    (fo eo si : Bool) (nJobs : ℕ) :
    (fit runFit cc pav G s [] prior fo eo false si nJobs).outcome = .delegated fo eo si
    ∧ (fit runFit cc pav G s [] prior fo eo false si nJobs).filterCalls = 1
    ∧ (fit runFit cc pav G s [] prior fo eo false si nJobs).state.rasterValues
        = s.rasterValues
    ∧ (fit runFit cc pav G s [] prior fo eo false si nJobs).state.rasterConstant
        = s.rasterConstant
    ∧ (fit runFit cc pav G s [] prior fo eo false si nJobs).state.hyperParameterDistribution
        = s.hyperParameterDistribution := by
  simp [fit]

/-! ## Claim C4: configuration failures abort before the sweep -/

/-- Claim C4: whenever `fit` fails configuration validation (empty custom
raster attributes, prior length mismatch, a prior with free parameters, or a
failed consistency check) it returns before any grid point is evaluated: the
single-point filtering routine is invoked zero times and the prior aggregate
state (total log-evidence, posterior sequence, hyper-parameter distribution)
is left unmodified. -/
lemma fitSweepPhase_outcome (runFit : List ℝ → FitResult) (pav : Bool) (G : ℕ)
    (s : StudyState) (hp : List ℝ) (eo : Bool) (nJobs : ℕ) :
    (fitSweepPhase runFit pav G s hp eo nJobs).outcome = .completed := rfl

lemma fitConsistencyPhase_abort (runFit : List ℝ → FitResult) (cc pav : Bool) (G : ℕ)
    (s : StudyState) (hp : List ℝ) (eo : Bool) (nJobs : ℕ) (e : ConfigError)
    (h : (fitConsistencyPhase runFit cc pav G s hp eo nJobs).outcome = .aborted e) :
    (fitConsistencyPhase runFit cc pav G s hp eo nJobs).filterCalls = 0
    ∧ (fitConsistencyPhase runFit cc pav G s hp eo nJobs).state.logEvidence = s.logEvidence
    ∧ (fitConsistencyPhase runFit cc pav G s hp eo nJobs).state.posteriorSequence
        = s.posteriorSequence
    ∧ (fitConsistencyPhase runFit cc pav G s hp eo nJobs).state.hyperParameterDistribution
        = s.hyperParameterDistribution := by
  unfold fitConsistencyPhase at h ⊢
  split_ifs at h ⊢ <;>
    first
      | exact ⟨rfl, rfl, rfl, rfl⟩
      | exact FitOutcome.noConfusion ((fitSweepPhase_outcome _ _ _ _ _ _ _).symm.trans h)

lemma fitPriorPhase_abort (runFit : List ℝ → FitResult) (cc pav : Bool) (G : ℕ)
    (s : StudyState) (prior : List PriorSpec) (eo : Bool) (nJobs : ℕ) (e : ConfigError)
    (h : (fitPriorPhase runFit cc pav G s prior eo nJobs).outcome = .aborted e) :
    (fitPriorPhase runFit cc pav G s prior eo nJobs).filterCalls = 0
    ∧ (fitPriorPhase runFit cc pav G s prior eo nJobs).state.logEvidence = s.logEvidence
    ∧ (fitPriorPhase runFit cc pav G s prior eo nJobs).state.posteriorSequence
        = s.posteriorSequence
    ∧ (fitPriorPhase runFit cc pav G s prior eo nJobs).state.hyperParameterDistribution
        = s.hyperParameterDistribution := by
  unfold fitPriorPhase at h ⊢
  split_ifs at h ⊢ <;>
    first
      | exact ⟨rfl, rfl, rfl, rfl⟩
      | exact fitConsistencyPhase_abort _ _ _ _ _ _ _ _ e h

/-- Claim C4 (continued): the abort behaviour of the full `fit`. -/
theorem fit_abort_preserves_aggregates (runFit : List ℝ → FitResult)
    (cc pav : Bool) (G : ℕ) (s : StudyState) (raster : List RasterDim)
    (prior : List PriorSpec) (fo eo cr si : Bool) (nJobs : ℕ) (e : ConfigError)
    (h : (fit runFit cc pav G s raster prior fo eo cr si nJobs).outcome = .aborted e) :
    (fit runFit cc pav G s raster prior fo eo cr si nJobs).filterCalls = 0
    ∧ (fit runFit cc pav G s raster prior fo eo cr si nJobs).state.logEvidence
        = s.logEvidence
    ∧ (fit runFit cc pav G s raster prior fo eo cr si nJobs).state.posteriorSequence
        = s.posteriorSequence
    ∧ (fit runFit cc pav G s raster prior fo eo cr si nJobs).state.hyperParameterDistribution
        = s.hyperParameterDistribution := by
  unfold fit at h ⊢
  split_ifs at h ⊢ <;>
    first
      | exact FitOutcome.noConfusion h
      | exact ⟨rfl, rfl, rfl, rfl⟩
      | exact fitPriorPhase_abort _ _ _ _ _ _ _ _ e h

/-- Witness for C4: a concrete call with `customRaster = True` and an empty
`raster` attribute aborts with no filtering calls and untouched aggregate
state. -/
theorem fit_abort_preserves_aggregates_witness :
    ((fit (fun _ => ⟨0, fun _ => 0, fun _ _ => 0⟩) true true 1
        ⟨[], [], [], none, none, fun _ _ => 0, [], [], 0, fun _ => 0, none⟩
        [] [] false false true false 1).outcome = .aborted .emptyRasterAttr)
    ∧ ((fit (fun _ => ⟨0, fun _ => 0, fun _ _ => 0⟩) true true 1
        ⟨[], [], [], none, none, fun _ _ => 0, [], [], 0, fun _ => 0, none⟩
        [] [] false false true false 1).filterCalls = 0
      ∧ (fit (fun _ => ⟨0, fun _ => 0, fun _ _ => 0⟩) true true 1
        ⟨[], [], [], none, none, fun _ _ => 0, [], [], 0, fun _ => 0, none⟩
        [] [] false false true false 1).state.logEvidence = (0 : ℝ)
      ∧ (fit (fun _ => ⟨0, fun _ => 0, fun _ _ => 0⟩) true true 1
        ⟨[], [], [], none, none, fun _ _ => 0, [], [], 0, fun _ => 0, none⟩
        [] [] false false true false 1).state.posteriorSequence = none
      ∧ (fit (fun _ => ⟨0, fun _ => 0, fun _ _ => 0⟩) true true 1
        ⟨[], [], [], none, none, fun _ _ => 0, [], [], 0, fun _ => 0, none⟩
        [] [] false false true false 1).state.hyperParameterDistribution = none) :=
  ⟨by simp [fit],
    fit_abort_preserves_aggregates _ _ _ _ _ _ _ _ _ _ _ _ .emptyRasterAttr (by simp [fit])⟩

/-! ## Sweep lemmas -/

lemma sweepGo_cons (eo : Bool) (r : FitResult × ℝ) (rs : List (FitResult × ℝ))
    (st : SweepState) :
    sweepGo eo (r :: rs) st = sweepGo eo rs (sweepStep eo st r) := rfl

lemma sweepGo_logEvidenceList (eo : Bool) (rs : List (FitResult × ℝ)) (st : SweepState) :
    (sweepGo eo rs st).logEvidenceList
      = st.logEvidenceList ++ rs.map fun rp => rp.1.logEvidence := by
  induction rs generalizing st with
  | nil => simp [sweepGo]
  | cons r rs ih =>
    rw [sweepGo_cons, ih]
    simp [sweepStep]

lemma sweepGo_localEvidenceList (eo : Bool) (rs : List (FitResult × ℝ)) (st : SweepState) :
    (sweepGo eo rs st).localEvidenceList
      = st.localEvidenceList ++ rs.map fun rp => rp.1.localEvidence := by
  induction rs generalizing st with
  | nil => simp [sweepGo]
  | cons r rs ih =>
    rw [sweepGo_cons, ih]
    simp [sweepStep]

lemma sweepGo_aps_evidenceOnly (rs : List (FitResult × ℝ)) (st : SweepState) :
    (sweepGo true rs st).averagePosteriorSequence = st.averagePosteriorSequence := by
  induction rs generalizing st with
  | nil => rfl
  | cons r rs ih =>
    rw [sweepGo_cons, ih]
    rfl

lemma sweepGo_aps (rs : List (FitResult × ℝ)) (st : SweepState) (a : ℝ)
    (hne : st.logEvidenceList ≠ []) (hh : st.logEvidenceList.headD 0 = a) :
    (sweepGo false rs st).averagePosteriorSequence = fun t g =>
      st.averagePosteriorSequence t g +
        (rs.map fun rp =>
          rp.1.posteriorSequence t g * Real.exp (rp.1.logEvidence - a) * rp.2).sum := by
  induction rs generalizing st with
  | nil => funext t g; simp [sweepGo]
  | cons r rs ih =>
    have hstep : (sweepStep false st r).logEvidenceList
        = st.logEvidenceList ++ [r.1.logEvidence] := rfl
    have hne' : (sweepStep false st r).logEvidenceList ≠ [] := by simp [hstep]
    have hh' : (sweepStep false st r).logEvidenceList.headD 0 = a := by
      rw [hstep]
      cases hl : st.logEvidenceList with
      | nil => exact absurd hl hne
      | cons x xs => rw [hl] at hh; simpa using hh
    rw [sweepGo_cons, ih _ hne' hh']
    funext t g
    have haps : (sweepStep false st r).averagePosteriorSequence t g
        = st.averagePosteriorSequence t g +
          r.1.posteriorSequence t g *
            Real.exp (r.1.logEvidence - (st.logEvidenceList ++ [r.1.logEvidence]).headD 0) *
            r.2 := rfl
    rw [haps]
    have : (st.logEvidenceList ++ [r.1.logEvidence]).headD 0 = a := by
      cases hl : st.logEvidenceList with
      | nil => exact absurd hl hne
      | cons x xs => rw [hl] at hh; simpa using hh
    rw [this]
    simp only [List.map_cons, List.sum_cons]
    ring

lemma sweepGo_aps_init (rs : List (FitResult × ℝ)) :
    (sweepGo false rs initSweepState).averagePosteriorSequence = fun t g =>
      (rs.map fun rp =>
        rp.1.posteriorSequence t g *
          Real.exp (rp.1.logEvidence - ((rs.map fun rp => rp.1.logEvidence).headD 0)) *
          rp.2).sum := by
  cases rs with
  | nil => funext t g; simp [sweepGo, initSweepState]
  | cons r rs =>
    rw [sweepGo_cons,
      sweepGo_aps rs _ r.1.logEvidence (by simp [sweepStep, initSweepState])
        (by simp [sweepStep, initSweepState])]
    funext t g
    have haps : (sweepStep false initSweepState r).averagePosteriorSequence t g
        = 0 + r.1.posteriorSequence t g *
            Real.exp (r.1.logEvidence - ([] ++ [r.1.logEvidence]).headD 0) * r.2 := rfl
    rw [haps]
    simp

/-! ## Claim C3: accumulation and normalization of the average posterior -/

/-- Claim C3: for a non-evidence-only sweep over a non-empty list of grid
points, the average-posterior accumulator, seeded at zero, ends up holding
`sum_i posterior_i * exp(logEvidence_i - logEvidence_0) * prior_i` (with
`logEvidence_0` the log-evidence of the first point processed), and after
normalization every time step of the averaged posterior sequence sums to 1. -/
theorem averagePosterior_accumulation (rs : List (FitResult × ℝ)) (G : ℕ)
    (hne : rs ≠ [])
    (hnz : ∀ t, (∑ g ∈ Finset.range G,
        (sweepGo false rs initSweepState).averagePosteriorSequence t g) ≠ 0) :
    ((sweepGo false rs initSweepState).averagePosteriorSequence = fun t g =>
      (rs.map fun rp =>
        rp.1.posteriorSequence t g *
          Real.exp (rp.1.logEvidence - ((rs.map fun rp => rp.1.logEvidence).headD 0)) *
          rp.2).sum)
    ∧ ∀ t, ∑ g ∈ Finset.range G,
        normalizeAPS G (sweepGo false rs initSweepState).averagePosteriorSequence t g = 1 := by
  refine ⟨sweepGo_aps_init rs, fun t => ?_⟩
  unfold normalizeAPS
  rw [← Finset.sum_div, div_self (hnz t)]

/-- Witness for C3: one grid point with log-evidence `0`, the constant
posterior sequence `1`, prior weight `1`, over a single-cell grid. -/
theorem averagePosterior_accumulation_witness :
    ([(FitResult.mk 0 (fun _ => 0) (fun _ _ => 1), (1 : ℝ))] ≠ [])
    ∧ (∀ t, (∑ g ∈ Finset.range 1,
        (sweepGo false [(FitResult.mk 0 (fun _ => 0) (fun _ _ => 1), (1 : ℝ))]
          initSweepState).averagePosteriorSequence t g) ≠ 0)
    ∧ ∑ g ∈ Finset.range 1,
        normalizeAPS 1 (sweepGo false [(FitResult.mk 0 (fun _ => 0) (fun _ _ => 1), (1 : ℝ))]
          initSweepState).averagePosteriorSequence 0 g = 1 := by
  have hval : ∀ t g, (sweepGo false [(FitResult.mk 0 (fun _ => 0) (fun _ _ => 1), (1 : ℝ))]
      initSweepState).averagePosteriorSequence t g = 1 := by
    intro t g
    rw [sweepGo_aps_init]
    simp
  have hnz : ∀ t, (∑ g ∈ Finset.range 1,
      (sweepGo false [(FitResult.mk 0 (fun _ => 0) (fun _ _ => 1), (1 : ℝ))]
        initSweepState).averagePosteriorSequence t g) ≠ 0 := by
    intro t
    simp [hval]
  exact ⟨by simp, hnz,
    (averagePosterior_accumulation [(FitResult.mk 0 (fun _ => 0) (fun _ _ => 1), (1 : ℝ))] 1
      (by simp) hnz).2 0⟩

/-! ## Grid length -/

lemma cartProd_length (ls : List (List ℝ)) :
    (cartProd ls).length = (ls.map List.length).prod := by
  induction ls with
  | nil => simp [cartProd]
  | cons xs rest ih =>
    rw [cartProd, List.length_flatten, List.map_map]
    have hconst : (List.map (List.length ∘ fun x => (cartProd rest).map fun p => x :: p) xs)
        = xs.map fun _ => (cartProd rest).length := by
      refine List.map_congr_left fun x _ => ?_
      simp [Function.comp]
    rw [hconst]
    have hsum : (xs.map fun _ => (cartProd rest).length).sum
        = xs.length * (cartProd rest).length := by
      induction xs with
      | nil => simp
      | cons y ys ihy => simp [ihy, Nat.succ_mul, Nat.add_comm]
    rw [hsum, ih]
    simp

/-! ## Claim C7: the hyper-parameter prior is a probability mass -/

lemma applyDensities_spec (pts : List (List ℝ)) (ds : List PriorSpec) :
    ∀ (i : ℕ) (acc : List ℝ),
      (∀ d ∈ ds, d.hasFreeSymbols = false) → acc.length = pts.length →
      (applyDensities pts ds i acc).2 = true
      ∧ (applyDensities pts ds i acc).1.length = pts.length
      ∧ ∀ j, j < pts.length →
          (applyDensities pts ds i acc).1.getD j 0
            = acc.getD j 0 *
              ∏ t ∈ Finset.range ds.length,
                (ds.getD t default).pdf ((pts.getD j []).getD (i + t) 0) := by
  induction ds with
  | nil =>
    intro i acc _ hlen
    exact ⟨rfl, hlen, fun j _ => by simp [applyDensities]⟩
  | cons d ds ih =>
    intro i acc hfree hlen
    have hd : d.hasFreeSymbols = false := hfree d (List.mem_cons_self d ds)
    have hstep : applyDensities pts (d :: ds) i acc
        = applyDensities pts ds (i + 1)
            ((acc.zip pts).map fun ax => ax.1 * d.pdf (ax.2.getD i 0)) := by
      rw [applyDensities, hd]
      simp
    have hlen' : ((acc.zip pts).map fun ax => ax.1 * d.pdf (ax.2.getD i 0)).length
        = pts.length := by
      simp [List.length_zip, hlen]
    obtain ⟨hok, hl, hval⟩ := ih (i + 1)
      ((acc.zip pts).map fun ax => ax.1 * d.pdf (ax.2.getD i 0))
      (fun d' hd' => hfree d' (List.mem_cons_of_mem _ hd')) hlen'
    rw [hstep]
    refine ⟨hok, hl, fun j hj => ?_⟩
    rw [hval j hj]
    have hacc : (((acc.zip pts).map fun ax => ax.1 * d.pdf (ax.2.getD i 0)).getD j 0)
        = acc.getD j 0 * d.pdf ((pts.getD j []).getD i 0) := by
      have hjz : j < (acc.zip pts).length := by simp [List.length_zip, hlen, hj]
      rw [List.getD_eq_getElem _ _ (by simpa using hjz), List.getElem_map, List.getElem_zip,
        List.getD_eq_getElem acc _ (by rw [hlen]; exact hj), List.getD_eq_getElem pts _ hj]
    rw [hacc, List.length_cons, Finset.prod_range_succ']
    have hshift : (∏ t ∈ Finset.range ds.length,
          ((d :: ds).getD (t + 1) default).pdf ((pts.getD j []).getD (i + (t + 1)) 0))
        = ∏ t ∈ Finset.range ds.length,
            (ds.getD t default).pdf ((pts.getD j []).getD (i + 1 + t) 0) := by
      refine Finset.prod_congr rfl fun t _ => ?_
      rw [List.getD_cons_succ, show i + (t + 1) = i + 1 + t by omega]
    rw [hshift, List.getD_cons_zero, mul_assoc,
      mul_comm (d.pdf ((pts.getD j []).getD i 0))]
    simp

/-- Claim C7: the hyper-parameter prior computed by `fit` is a non-negative
vector with one entry per grid point summing to 1.  With no densities every
entry is `1/numGridPoints` — in particular `[1/3, 1/3, 1/3]` for the raster
`[["sigma", 0, 1, 3]]` — and with densities each entry is the per-point
product of the density values divided by the total over all grid points. -/
theorem hyperParameterPrior_is_probability_mass
    (pts : List (List ℝ)) (ds : List PriorSpec)
    (hfree : ∀ d ∈ ds, d.hasFreeSymbols = false)
    (hpdf : ∀ d ∈ ds, ∀ v, 0 ≤ d.pdf v)
    (hsum : 0 < (applyDensities pts ds 0 (List.replicate pts.length 1)).1.sum) :
    (∀ n : ℕ, 1 ≤ n →
      (uniformPrior n).length = n
      ∧ (∀ x ∈ uniformPrior n, 0 ≤ x)
      ∧ (uniformPrior n).sum = 1)
    ∧ uniformPrior (rasterValuesOf [RasterDim.mk "sigma" 0 1 3]).length
        = [1 / 3, 1 / 3, 1 / 3]
    ∧ (normalizedPrior (applyDensities pts ds 0 (List.replicate pts.length 1)).1).length
        = pts.length
    ∧ (∀ j, j < pts.length →
        0 ≤ (normalizedPrior (applyDensities pts ds 0 (List.replicate pts.length 1)).1).getD j 0)
    ∧ (normalizedPrior (applyDensities pts ds 0 (List.replicate pts.length 1)).1).sum = 1
    ∧ ∀ j, j < pts.length →
        (normalizedPrior (applyDensities pts ds 0 (List.replicate pts.length 1)).1).getD j 0
          = (∏ t ∈ Finset.range ds.length,
              (ds.getD t default).pdf ((pts.getD j []).getD t 0))
            / (applyDensities pts ds 0 (List.replicate pts.length 1)).1.sum := by
  obtain ⟨-, hlen, hval⟩ :=
    applyDensities_spec pts ds 0 (List.replicate pts.length 1) hfree (by simp)
  have hraw : ∀ j, j < pts.length →
      (applyDensities pts ds 0 (List.replicate pts.length 1)).1.getD j 0
        = ∏ t ∈ Finset.range ds.length,
            (ds.getD t default).pdf ((pts.getD j []).getD t 0) := by
    intro j hj
    rw [hval j hj]
    have : (List.replicate pts.length (1 : ℝ)).getD j 0 = 1 := by
      rw [List.getD_eq_getElem _ _ (by simpa using hj), List.getElem_replicate]
    rw [this, one_mul]
    exact Finset.prod_congr rfl fun t _ => by rw [Nat.zero_add]
  have hnd : ∀ j, j < pts.length →
      (normalizedPrior (applyDensities pts ds 0 (List.replicate pts.length 1)).1).getD j 0
        = (applyDensities pts ds 0 (List.replicate pts.length 1)).1.getD j 0
          / (applyDensities pts ds 0 (List.replicate pts.length 1)).1.sum := by
    intro j hj
    rw [normalizedPrior,
      List.getD_eq_getElem _ _ (by simpa [hlen] using hj), List.getElem_map,
      List.getD_eq_getElem _ _ (by simpa [hlen] using hj)]
  refine ⟨fun n hn => ⟨by simp [uniformPrior], ?_, ?_⟩, ?_, ?_, ?_, ?_, ?_⟩
  · intro x hx
    rw [uniformPrior, List.mem_replicate] at hx
    rw [hx.2]
    positivity
  · rw [uniformPrior, List.sum_replicate, nsmul_eq_mul]
    have hn0 : (n : ℝ) ≠ 0 := by positivity
    field_simp
  · have hlen3 : (rasterValuesOf [RasterDim.mk "sigma" 0 1 3]).length = 3 := by
      rw [rasterValuesOf, cartProd_length]
      simp only [List.map_cons, List.map_nil]
      rw [linspace_length]
      simp
    rw [hlen3]
    norm_num [uniformPrior, List.replicate]
  · simp [normalizedPrior, hlen]
  · intro j hj
    rw [hnd j hj, hraw j hj]
    refine div_nonneg (Finset.prod_nonneg fun t ht => ?_) hsum.le
    refine hpdf _ ?_ _
    have hlt : t < ds.length := Finset.mem_range.1 ht
    rw [List.getD_eq_getElem _ _ hlt]
    exact List.getElem_mem hlt
  · rw [normalizedPrior, list_sum_map_div, div_self hsum.ne']
  · intro j hj
    rw [hnd j hj, hraw j hj]

/-- Witness for C7 at the concrete grid `[[0], [1]]` with the single
density `pdf = const 2` (no free symbols). -/
theorem hyperParameterPrior_is_probability_mass_witness :
    (∀ d ∈ [PriorSpec.mk (fun _ => 2) false], d.hasFreeSymbols = false)
    ∧ (∀ d ∈ [PriorSpec.mk (fun _ => 2) false], ∀ v, 0 ≤ d.pdf v)
    ∧ 0 < (applyDensities [[0], [1]] [PriorSpec.mk (fun _ => 2) false] 0
        (List.replicate ([[(0 : ℝ)], [1]]).length 1)).1.sum
    ∧ (normalizedPrior (applyDensities [[0], [1]] [PriorSpec.mk (fun _ => 2) false] 0
        (List.replicate ([[(0 : ℝ)], [1]]).length 1)).1).sum = 1 := by
  have hs : 0 < (applyDensities [[0], [1]] [PriorSpec.mk (fun _ => 2) false] 0
      (List.replicate ([[(0 : ℝ)], [1]]).length 1)).1.sum := by
    norm_num [applyDensities, List.replicate]
  exact ⟨by simp, by intro d hd v; simp at hd; simp [hd], hs,
    (hyperParameterPrior_is_probability_mass [[0], [1]] [PriorSpec.mk (fun _ => 2) false]
      (by simp) (by intro d hd v; simp at hd; simp [hd]) hs).2.2.2.2.1⟩

/-! ## Claim C8: marginalization integrates to one -/

/-- Claim C8: `plotHyperParameterDistribution` marginalizes the
hyper-parameter density to axis `p` by summing over all other axes and
multiplying by the product of those axes' spacing constants
(the definition `marginalDistribution`); the returned marginal, summed over
its own axis and multiplied by its own spacing constant, equals 1 whenever
the joint density integrates to 1 over the grid. -/
theorem marginalDistribution_integrates_to_one
    (shape : List ℕ) (dist rc : List ℝ) (p : ℕ)
    (hp : p < shape.length) (hrc : rc.length = shape.length)
    (hsp : 0 < shape.getD p 0)
    (hnorm : (∑ i ∈ Finset.range dist.length, dist.getD i 0)
        * (∏ d ∈ Finset.range rc.length, rc.getD d 0) = 1) :
    (∑ k ∈ Finset.range (shape.getD p 0),
        (marginalDistribution shape dist rc p).getD k 0) * rc.getD p 0 = 1 := by
  have hentry : ∀ k, k < shape.getD p 0 →
      (marginalDistribution shape dist rc p).getD k 0
        = (∑ i ∈ (Finset.range dist.length).filter fun i => axisIndex shape p i = k,
            dist.getD i 0)
          * ∏ d ∈ (Finset.range rc.length).erase p, rc.getD d 0 := by
    intro k hk
    rw [marginalDistribution,
      List.getD_eq_getElem _ _ (by simpa using hk), List.getElem_map, List.getElem_range]
  rw [Finset.sum_congr rfl fun k hk => hentry k (Finset.mem_range.1 hk)]
  rw [← Finset.sum_mul]
  have hfiber : (∑ k ∈ Finset.range (shape.getD p 0),
      ∑ i ∈ (Finset.range dist.length).filter fun i => axisIndex shape p i = k,
        dist.getD i 0) = ∑ i ∈ Finset.range dist.length, dist.getD i 0 := by
    refine Finset.sum_fiberwise_of_maps_to (fun i _ => ?_) _
    rw [Finset.mem_range]
    exact Nat.mod_lt _ hsp
  rw [hfiber, mul_assoc, Finset.prod_erase_mul _ _ (by rw [Finset.mem_range, hrc]; exact hp)]
  exact hnorm

/-- Witness for C8: the one-dimensional shape `[2]` with density `[1, 1]`
and spacing constant `1/2`. -/
theorem marginalDistribution_integrates_to_one_witness :
    (0 < 1) ∧ ([(1 : ℝ) / 2].length = [2].length) ∧ (0 < List.getD [2] 0 0)
    ∧ ((∑ i ∈ Finset.range ([(1 : ℝ), 1]).length, [(1 : ℝ), 1].getD i 0)
        * (∏ d ∈ Finset.range ([(1 : ℝ) / 2]).length, [(1 : ℝ) / 2].getD d 0) = 1)
    ∧ (∑ k ∈ Finset.range (List.getD [2] 0 0),
        (marginalDistribution [2] [(1 : ℝ), 1] [(1 : ℝ) / 2] 0).getD k 0)
        * [(1 : ℝ) / 2].getD 0 0 = 1 := by
  have hnorm : (∑ i ∈ Finset.range ([(1 : ℝ), 1]).length, [(1 : ℝ), 1].getD i 0)
      * (∏ d ∈ Finset.range ([(1 : ℝ) / 2]).length, [(1 : ℝ) / 2].getD d 0) = 1 := by
    norm_num [Finset.sum_range_succ, Finset.prod_range_succ]
  exact ⟨by norm_num, by simp, by simp, hnorm,
    marginalDistribution_integrates_to_one [2] [1, 1] [1 / 2] 0 (by simp) (by simp)
      (by simp) hnorm⟩

/-! ## Claim C6: grid size and "ij" indexing -/

lemma cartProd_cons_getD (xs : List ℝ) (g : List (List ℝ)) (k : ℕ)
    (hk : k < xs.length * g.length) :
    ((xs.map fun x => g.map fun p => x :: p).flatten).getD k []
      = xs.getD (k / g.length) 0 :: g.getD (k % g.length) [] := by
  induction xs generalizing k with
  | nil => simp at hk
  | cons x xs ih =>
    have hg : 0 < g.length := by
      rcases Nat.eq_zero_or_pos g.length with h0 | h0
      · rw [h0, Nat.mul_zero] at hk; omega
      · exact h0
    rw [List.map_cons, List.flatten_cons]
    by_cases hlt : k < g.length
    · rw [List.getD_append _ _ _ _ (by simpa using hlt),
        List.getD_eq_getElem _ _ (by simpa using hlt), List.getElem_map,
        Nat.div_eq_of_lt hlt, Nat.mod_eq_of_lt hlt, List.getD_cons_zero,
        List.getD_eq_getElem g _ hlt]
    · push_neg at hlt
      rw [List.getD_append_right _ _ _ _ (by simpa using hlt)]
      have hmaplen : (g.map fun p => x :: p).length = g.length := by simp
      rw [hmaplen]
      have hk2 : k < xs.length * g.length + g.length := by
        calc k < (x :: xs).length * g.length := hk
          _ = xs.length * g.length + g.length := by rw [List.length_cons, Nat.succ_mul]
      have hk' : k - g.length < xs.length * g.length := by omega
      rw [ih _ hk']
      have hrepr : k = g.length + (k - g.length) := by omega
      have hdiv : k / g.length = (k - g.length) / g.length + 1 := by
        conv_lhs => rw [hrepr]
        rw [Nat.add_div_left _ hg]
      have hmod : k % g.length = (k - g.length) % g.length := by
        conv_lhs => rw [hrepr]
        rw [Nat.add_mod_left]
      rw [hdiv, hmod, List.getD_cons_succ]

lemma cartProd_getD (ls : List (List ℝ)) :
    ∀ k, k < (ls.map List.length).prod → ∀ d, d < ls.length →
      ((cartProd ls).getD k []).getD d 0
        = (ls.getD d []).getD
            ((k / ((ls.drop (d + 1)).map List.length).prod) % (ls.getD d []).length) 0 := by
  induction ls with
  | nil =>
    intro k _ d hd
    simp at hd
  | cons xs rest ih =>
    intro k hk d hd
    have hkP : k < xs.length * (cartProd rest).length := by
      rw [cartProd_length]
      simpa [List.prod_cons] using hk
    have hP : 0 < (cartProd rest).length := by
      rcases Nat.eq_zero_or_pos (cartProd rest).length with h0 | h0
      · rw [h0, Nat.mul_zero] at hkP; omega
      · exact h0
    have hflat := cartProd_cons_getD xs (cartProd rest) k hkP
    rw [show cartProd (xs :: rest)
        = (xs.map fun x => (cartProd rest).map fun p => x :: p).flatten from rfl, hflat]
    cases d with
    | zero =>
      rw [List.getD_cons_zero, List.getD_cons_zero]
      have hdrop : (xs :: rest).drop 1 = rest := rfl
      rw [hdrop, ← cartProd_length,
        Nat.mod_eq_of_lt ((Nat.div_lt_iff_lt_mul hP).2 hkP)]
    | succ d' =>
      rw [List.getD_cons_succ, List.getD_cons_succ]
      have hd' : d' < rest.length := by simpa using hd
      have hkmod : k % (cartProd rest).length < (rest.map List.length).prod := by
        rw [← cartProd_length]
        exact Nat.mod_lt _ hP
      rw [ih (k % (cartProd rest).length) hkmod d' hd']
      have hdrop2 : (xs :: rest).drop (d' + 1 + 1) = rest.drop (d' + 1) := rfl
      rw [hdrop2, cartProd_length]
      have hdecomp : (rest.map List.length).prod
          = ((rest.drop (d' + 1)).map List.length).prod
            * (((rest.map List.length).take d').prod * (rest.getD d' []).length) := by
        rw [← List.prod_take_mul_prod_drop (rest.map List.length) d', ← List.map_drop,
          List.drop_eq_getElem_cons hd', List.map_cons, List.prod_cons, List.map_drop,
          List.getD_eq_getElem rest _ hd']
        ring
      rw [hdecomp, Nat.mod_mul_right_div_self,
        Nat.mod_mod_of_dvd _ (dvd_mul_left _ _)]

/-- Claim C6: for a regular raster the grid has `∏ stepCount_d` points, in
"ij" order — the flat point at index `k` has, in dimension `d`, the
`(k / ∏_{e>d} stepCount_e) % stepCount_d`-th of the evenly spaced values
between that dimension's bounds, so the first dimension varies slowest and
the last fastest. -/
theorem raster_grid_shape (raster : List RasterDim) :
    (rasterValuesOf raster).length = (raster.map fun d => d.steps).prod
    ∧ ∀ k, k < (raster.map fun d => d.steps).prod → ∀ d, d < raster.length →
        ((rasterValuesOf raster).getD k []).getD d 0
          = (linspace (raster.getD d default).lower (raster.getD d default).upper
              (raster.getD d default).steps).getD
              ((k / ((raster.drop (d + 1)).map fun d => d.steps).prod)
                % (raster.getD d default).steps) 0 := by
  have hmap : (raster.map fun d => linspace d.lower d.upper d.steps).map List.length
      = raster.map fun d => d.steps := by
    rw [List.map_map]
    exact List.map_congr_left fun d _ => linspace_length d.lower d.upper d.steps
  constructor
  · rw [rasterValuesOf, cartProd_length, hmap]
  · intro k hk d hd
    have hls : (raster.map fun d => linspace d.lower d.upper d.steps).getD d []
        = linspace (raster.getD d default).lower (raster.getD d default).upper
            (raster.getD d default).steps := by
      rw [List.getD_eq_getElem _ _ (by simpa using hd), List.getElem_map,
        List.getD_eq_getElem _ _ hd]
    have hdropmap :
        (((raster.map fun d => linspace d.lower d.upper d.steps).drop (d + 1)).map
          List.length) = (raster.drop (d + 1)).map fun d => d.steps := by
      rw [← List.map_drop, List.map_map]
      exact List.map_congr_left fun d _ => linspace_length d.lower d.upper d.steps
    have hidx := cartProd_getD (raster.map fun d => linspace d.lower d.upper d.steps) k
      (by rw [hmap]; exact hk) d (by simpa using hd)
    rw [rasterValuesOf, hidx, hls, hdropmap, linspace_length]

/-- Witness for C6: the raster `[["a", 0, 1, 2], ["b", 0, 1, 3]]` has `6`
grid points and point `5` has second coordinate `1` (the last value of
`linspace 0 1 3`). -/
theorem raster_grid_shape_witness :
    (5 < ([RasterDim.mk "a" 0 1 2, RasterDim.mk "b" 0 1 3].map fun d => d.steps).prod)
    ∧ (1 < [RasterDim.mk "a" 0 1 2, RasterDim.mk "b" 0 1 3].length)
    ∧ (rasterValuesOf [RasterDim.mk "a" 0 1 2, RasterDim.mk "b" 0 1 3]).length = 6
    ∧ ((rasterValuesOf [RasterDim.mk "a" 0 1 2, RasterDim.mk "b" 0 1 3]).getD 5 []).getD 1 0
        = 1 := by
  have h5 : (5 : ℕ) < ([RasterDim.mk "a" 0 1 2, RasterDim.mk "b" 0 1 3].map
      fun d => d.steps).prod := by
    norm_num [List.map_cons, List.map_nil, List.prod_cons, List.prod_nil]
  have h1 : (1 : ℕ) < [RasterDim.mk "a" 0 1 2, RasterDim.mk "b" 0 1 3].length := by
    norm_num
  refine ⟨h5, h1, ?_, ?_⟩
  · rw [(raster_grid_shape [RasterDim.mk "a" 0 1 2, RasterDim.mk "b" 0 1 3]).1]
    norm_num [List.map_cons, List.map_nil, List.prod_cons, List.prod_nil]
  · rw [(raster_grid_shape [RasterDim.mk "a" 0 1 2, RasterDim.mk "b" 0 1 3]).2 5 h5 1 h1]
    norm_num [linspace, List.range_succ, List.map_cons, List.map_nil, List.prod_cons,
      List.prod_nil]

/-! ## Split and merge lemmas -/

lemma list_sum_map_const (l : List α) (c : ℕ) : (l.map fun _ => c).sum = l.length * c := by
  induction l with
  | nil => simp
  | cons x xs ih => simp [ih, Nat.succ_mul, Nat.add_comm]

lemma sum_range_map_if (n r q : ℕ) (h : r ≤ n) :
    ((List.range n).map fun i => if i < r then q + 1 else q).sum = n * q + r := by
  induction n with
  | zero =>
    have : r = 0 := Nat.le_zero.1 h
    simp [this]
  | succ n ih =>
    rcases Nat.lt_or_ge r (n + 1) with hr | hr
    · have hrn : r ≤ n := by omega
      have hfn : (if n < r then q + 1 else q) = q := by
        rw [if_neg (by omega)]
      rw [List.range_succ, List.map_append, List.sum_append, ih hrn]
      simp [hfn, Nat.succ_mul]
      omega
    · have hrn : r = n + 1 := by omega
      subst hrn
      rw [List.range_succ, List.map_append, List.sum_append]
      have hconst : ((List.range n).map fun i => if i < n + 1 then q + 1 else q)
          = (List.range n).map fun _ => q + 1 := by
        refine List.map_congr_left fun i hi => ?_
        rw [if_pos (by rw [List.mem_range] at hi; omega)]
      rw [hconst, list_sum_map_const]
      simp [Nat.succ_mul, Nat.mul_add]
      omega

lemma splitSizes_sum (l n : ℕ) (h : 1 ≤ n) : (splitSizes l n).sum = l := by
  rw [splitSizes, sum_range_map_if n (l % n) (l / n) (le_of_lt (Nat.mod_lt _ h))]
  exact Nat.div_add_mod l n

lemma chop_flatten (ss : List ℕ) : ∀ xs : List α, ss.sum = xs.length →
    (chop ss xs).flatten = xs := by
  induction ss with
  | nil =>
    intro xs h
    have : xs = [] := by
      cases xs with
      | nil => rfl
      | cons x xs => simp at h
    rw [this]
    rfl
  | cons s ss ih =>
    intro xs h
    rw [chop, List.flatten_cons, ih (xs.drop s) (by simp at h ⊢; omega),
      List.take_append_drop]

lemma arraySplit_flatten (xs : List α) (n : ℕ) (h : 1 ≤ n) :
    (arraySplit xs n).flatten = xs :=
  chop_flatten _ _ (splitSizes_sum _ _ h)

lemma chop_map (ss : List ℕ) (f : α → β) : ∀ xs : List α,
    chop ss (xs.map f) = (chop ss xs).map (List.map f) := by
  induction ss with
  | nil => intro xs; rfl
  | cons s ss ih =>
    intro xs
    rw [chop, chop, List.map_cons, ← List.map_take, ← List.map_drop, ih]

lemma zip_take_eq (n : ℕ) : ∀ (as : List α) (bs : List β),
    (as.zip bs).take n = (as.take n).zip (bs.take n) := by
  induction n with
  | zero => intro as bs; simp
  | succ n ih =>
    intro as bs
    cases as with
    | nil => simp
    | cons a as =>
      cases bs with
      | nil => simp
      | cons b bs => simp [ih]

lemma zip_drop_eq (n : ℕ) : ∀ (as : List α) (bs : List β),
    (as.zip bs).drop n = (as.drop n).zip (bs.drop n) := by
  induction n with
  | zero => intro as bs; simp
  | succ n ih =>
    intro as bs
    cases as with
    | nil => simp
    | cons a as =>
      cases bs with
      | nil => simp
      | cons b bs => simp [ih]

lemma chop_zip (ss : List ℕ) : ∀ (as : List α) (bs : List β),
    chop ss (as.zip bs) = List.zipWith (fun x y => x.zip y) (chop ss as) (chop ss bs) := by
  induction ss with
  | nil => intro as bs; rfl
  | cons s ss ih =>
    intro as bs
    rw [chop, chop, chop, List.zipWith_cons_cons, zip_take_eq, zip_drop_eq, ih]

lemma zipWith_map_zip (f : List γ → List δ) :
    ∀ (A : List (List γ)) (B : List (List ε)),
      (A.zip B).map (fun sh => (f sh.1).zip sh.2)
        = List.zipWith (fun x y => x.zip y) (A.map f) B := by
  intro A
  induction A with
  | nil => intro B; rfl
  | cons a A ih =>
    intro B
    cases B with
    | nil => rfl
    | cons b B => simp [ih]

lemma mergeFold_logEvidenceList (eo : Bool) (subs : List SweepState) (st : SweepState) :
    (subs.foldl (mergeSub eo) st).logEvidenceList
      = st.logEvidenceList ++ (subs.map fun S => S.logEvidenceList).flatten := by
  induction subs generalizing st with
  | nil => simp
  | cons S subs ih =>
    rw [List.foldl_cons, ih]
    simp [mergeSub]

lemma mergeFold_localEvidenceList (eo : Bool) (subs : List SweepState) (st : SweepState) :
    (subs.foldl (mergeSub eo) st).localEvidenceList
      = st.localEvidenceList ++ (subs.map fun S => S.localEvidenceList).flatten := by
  induction subs generalizing st with
  | nil => simp
  | cons S subs ih =>
    rw [List.foldl_cons, ih]
    simp [mergeSub]

lemma mergeFold_aps (subs : List SweepState) (st : SweepState) :
    (subs.foldl (mergeSub false) st).averagePosteriorSequence
      = fun t g => st.averagePosteriorSequence t g
          + (subs.map fun S => S.averagePosteriorSequence t g).sum := by
  induction subs generalizing st with
  | nil => funext t g; simp
  | cons S subs ih =>
    rw [List.foldl_cons, ih]
    funext t g
    simp [mergeSub, add_assoc]

lemma mergeFold_aps_evidenceOnly (subs : List SweepState) (st : SweepState) :
    (subs.foldl (mergeSub true) st).averagePosteriorSequence
      = st.averagePosteriorSequence := by
  induction subs generalizing st with
  | nil => rfl
  | cons S subs ih =>
    rw [List.foldl_cons, ih]
    rfl

lemma arraySplit_zip_shards (runFit : List ℝ → FitResult) (pts : List (List ℝ))
    (hp : List ℝ) (n : ℕ) (hlen : hp.length = pts.length) :
    ((arraySplit pts n).zip (arraySplit hp n)).map (fun sh => (sh.1.map runFit).zip sh.2)
      = arraySplit ((pts.map runFit).zip hp) n := by
  have hlen2 : ((pts.map runFit).zip hp).length = pts.length := by
    simp [List.length_zip, hlen]
  rw [arraySplit, arraySplit, arraySplit, hlen2, hlen, zipWith_map_zip, ← chop_map, chop_zip]

/-! ## Claim C1 (amended): parallel split/merge -/

/-- Claim C1, amended: splitting the grid and the prior into `n` contiguous
shards, sweeping each shard independently and concatenating the shard
evidence lists in shard order reproduces the single-process evidence lists
exactly, hence the same total log-evidence and the same hyper-parameter
posterior distribution.  The merged average-posterior accumulator, however,
anchors each shard's relative-evidence weights at the shard's own first
log-evidence; it reproduces the single-process averaged posterior sequence
when every shard's first log-evidence equals the log-evidence of the first
grid point (the claim's unconditional equality fails otherwise, see the
counterexample). -/
theorem parallel_split_merge
    (runFit : List ℝ → FitResult) (pts : List (List ℝ)) (hp rc : List ℝ)
    (eo : Bool) (n G : ℕ) (hn : 1 ≤ n) (hlen : hp.length = pts.length) :
    ((parallelRun eo runFit pts hp n).logEvidenceList
        = (sweepRun eo runFit pts hp).logEvidenceList)
    ∧ ((parallelRun eo runFit pts hp n).localEvidenceList
        = (sweepRun eo runFit pts hp).localEvidenceList)
    ∧ (logEvidenceOf (parallelRun eo runFit pts hp n).logEvidenceList hp
        = logEvidenceOf (sweepRun eo runFit pts hp).logEvidenceList hp)
    ∧ (hyperParameterDistributionOf (parallelRun eo runFit pts hp n).logEvidenceList hp rc
        = hyperParameterDistributionOf (sweepRun eo runFit pts hp).logEvidenceList hp rc)
    ∧ ((∀ sh ∈ arraySplit (pts.map fun x => (runFit x).logEvidence) n, sh ≠ [] →
          sh.headD 0 = (pts.map fun x => (runFit x).logEvidence).headD 0) →
        (parallelRun eo runFit pts hp n).averagePosteriorSequence
            = (sweepRun eo runFit pts hp).averagePosteriorSequence
        ∧ normalizeAPS G (parallelRun eo runFit pts hp n).averagePosteriorSequence
            = normalizeAPS G (sweepRun eo runFit pts hp).averagePosteriorSequence) := by
  have hsubs := arraySplit_zip_shards runFit pts hp n hlen
  have hsubs' : ((arraySplit pts n).zip (arraySplit hp n)).map
      (fun sh => sweepGo eo ((sh.1.map runFit).zip sh.2) initSweepState)
      = (arraySplit ((pts.map runFit).zip hp) n).map
          (fun rs => sweepGo eo rs initSweepState) := by
    rw [← hsubs, List.map_map]
    rfl
  have hflat := arraySplit_flatten ((pts.map runFit).zip hp) n hn
  have hpar : parallelRun eo runFit pts hp n
      = ((arraySplit ((pts.map runFit).zip hp) n).map
          (fun rs => sweepGo eo rs initSweepState)).foldl (mergeSub eo) initSweepState := by
    rw [parallelRun, hsubs']
  have hparLel : (parallelRun eo runFit pts hp n).logEvidenceList
      = ((pts.map runFit).zip hp).map fun rp => rp.1.logEvidence := by
    rw [hpar, mergeFold_logEvidenceList]
    have hmm : ((arraySplit ((pts.map runFit).zip hp) n).map
          (fun rs => sweepGo eo rs initSweepState)).map (fun S => S.logEvidenceList)
        = (arraySplit ((pts.map runFit).zip hp) n).map
            (List.map fun rp => rp.1.logEvidence) := by
      rw [List.map_map]
      refine List.map_congr_left fun rs _ => ?_
      show (sweepGo eo rs initSweepState).logEvidenceList = _
      rw [sweepGo_logEvidenceList]
      rfl
    rw [hmm, ← List.map_flatten, hflat]
    rfl
  have hsingleLel : (sweepRun eo runFit pts hp).logEvidenceList
      = ((pts.map runFit).zip hp).map fun rp => rp.1.logEvidence := by
    rw [sweepRun, sweepGo_logEvidenceList]
    rfl
  have hparLoc : (parallelRun eo runFit pts hp n).localEvidenceList
      = ((pts.map runFit).zip hp).map fun rp => rp.1.localEvidence := by
    rw [hpar, mergeFold_localEvidenceList]
    have hmm : ((arraySplit ((pts.map runFit).zip hp) n).map
          (fun rs => sweepGo eo rs initSweepState)).map (fun S => S.localEvidenceList)
        = (arraySplit ((pts.map runFit).zip hp) n).map
            (List.map fun rp => rp.1.localEvidence) := by
      rw [List.map_map]
      refine List.map_congr_left fun rs _ => ?_
      show (sweepGo eo rs initSweepState).localEvidenceList = _
      rw [sweepGo_localEvidenceList]
      rfl
    rw [hmm, ← List.map_flatten, hflat]
    rfl
  have hsingleLoc : (sweepRun eo runFit pts hp).localEvidenceList
      = ((pts.map runFit).zip hp).map fun rp => rp.1.localEvidence := by
    rw [sweepRun, sweepGo_localEvidenceList]
    rfl
  have hlists : (parallelRun eo runFit pts hp n).logEvidenceList
      = (sweepRun eo runFit pts hp).logEvidenceList := hparLel.trans hsingleLel.symm
  refine ⟨hlists, hparLoc.trans hsingleLoc.symm, by rw [hlists], by rw [hlists], ?_⟩
  intro hanchor
  have hLrs : ((pts.map runFit).zip hp).map (fun rp => rp.1.logEvidence)
      = pts.map fun x => (runFit x).logEvidence := by
    have h1 : ((pts.map runFit).zip hp).map (fun rp => rp.1.logEvidence)
        = (((pts.map runFit).zip hp).map Prod.fst).map (fun r => r.logEvidence) := by
      rw [List.map_map]
      rfl
    rw [h1, List.map_fst_zip _ _ (by rw [List.length_map, hlen]), List.map_map]
    rfl
  have haps : (parallelRun eo runFit pts hp n).averagePosteriorSequence
      = (sweepRun eo runFit pts hp).averagePosteriorSequence := by
    cases eo with
    | true =>
      rw [hpar, mergeFold_aps_evidenceOnly, sweepRun, sweepGo_aps_evidenceOnly]
    | false =>
      rw [hpar, mergeFold_aps, sweepRun, sweepGo_aps_init]
      funext t g
      have hsub_aps : ((arraySplit ((pts.map runFit).zip hp) n).map
            (fun rs => sweepGo false rs initSweepState)).map
            (fun S => S.averagePosteriorSequence t g)
          = (arraySplit ((pts.map runFit).zip hp) n).map (fun sh =>
              (sh.map fun rp => rp.1.posteriorSequence t g *
                Real.exp (rp.1.logEvidence -
                  ((((pts.map runFit).zip hp).map fun rp => rp.1.logEvidence).headD 0)) *
                rp.2).sum) := by
        rw [List.map_map]
        refine List.map_congr_left fun sh hsh => ?_
        show (sweepGo false sh initSweepState).averagePosteriorSequence t g = _
        rw [sweepGo_aps_init]
        rcases eq_or_ne sh [] with rfl | hne
        · simp
        · have hmem : sh.map (fun rp => rp.1.logEvidence)
              ∈ arraySplit (pts.map fun x => (runFit x).logEvidence) n := by
            rw [← hLrs]
            have harr : arraySplit (((pts.map runFit).zip hp).map
                  fun rp => rp.1.logEvidence) n
                = (arraySplit ((pts.map runFit).zip hp) n).map
                    (List.map fun rp => rp.1.logEvidence) := by
              rw [arraySplit, arraySplit, List.length_map, ← chop_map]
            rw [harr]
            exact List.mem_map_of_mem _ hsh
          have hne' : sh.map (fun rp => rp.1.logEvidence) ≠ [] := by simpa using hne
          have hthis := hanchor _ hmem hne'
          rw [← hLrs] at hthis
          rw [hthis]
      rw [hsub_aps]
      have hflatsum : ((arraySplit ((pts.map runFit).zip hp) n).map (fun sh =>
            (sh.map fun rp => rp.1.posteriorSequence t g *
              Real.exp (rp.1.logEvidence -
                ((((pts.map runFit).zip hp).map fun rp => rp.1.logEvidence).headD 0)) *
              rp.2).sum)).sum
          = (((pts.map runFit).zip hp).map fun rp => rp.1.posteriorSequence t g *
              Real.exp (rp.1.logEvidence -
                ((((pts.map runFit).zip hp).map fun rp => rp.1.logEvidence).headD 0)) *
              rp.2).sum := by
        have hmm : (arraySplit ((pts.map runFit).zip hp) n).map (fun sh =>
              (sh.map fun rp => rp.1.posteriorSequence t g *
                Real.exp (rp.1.logEvidence -
                  ((((pts.map runFit).zip hp).map fun rp => rp.1.logEvidence).headD 0)) *
                rp.2).sum)
            = ((arraySplit ((pts.map runFit).zip hp) n).map
                (List.map fun rp => rp.1.posteriorSequence t g *
                  Real.exp (rp.1.logEvidence -
                    ((((pts.map runFit).zip hp).map fun rp => rp.1.logEvidence).headD 0)) *
                  rp.2)).map List.sum := by
          rw [List.map_map]
          rfl
        rw [hmm, ← List.sum_flatten, ← List.map_flatten, hflat]
      rw [hflatsum]
      show (0 : ℝ) + _ = _
      rw [zero_add]
  exact ⟨haps, by rw [haps]⟩

/-- Counterexample to claim C1 as stated: with two grid points `[0]` and
`[1]`, uniform prior `[1/2, 1/2]` and two workers, each worker anchors its
relative-evidence weights at its own first log-evidence, so the normalized
averaged posterior sequence of the parallel run (`1/2` at time `0`, cell
`0`) differs from that of the single-process run (`1/3`). -/
theorem parallel_split_merge_counterexample :
    normalizeAPS 2
        (parallelRun false cexRunFit [[0], [1]] [1 / 2, 1 / 2] 2).averagePosteriorSequence 0 0
      ≠ normalizeAPS 2
        (sweepRun false cexRunFit [[0], [1]] [1 / 2, 1 / 2]).averagePosteriorSequence 0 0 := by
  have hs00 : (sweepRun false cexRunFit [[0], [1]]
      [1 / 2, 1 / 2]).averagePosteriorSequence 0 0 = 1 / 2 := by
    rw [sweepRun, show ([[(0 : ℝ)], [1]].map cexRunFit).zip [(1 : ℝ) / 2, 1 / 2]
        = [(cexRunFit [0], 1 / 2), (cexRunFit [1], 1 / 2)] from rfl, sweepGo_aps_init]
    simp [cexRunFit]
  have hs01 : (sweepRun false cexRunFit [[0], [1]]
      [1 / 2, 1 / 2]).averagePosteriorSequence 0 1 = 1 := by
    rw [sweepRun, show ([[(0 : ℝ)], [1]].map cexRunFit).zip [(1 : ℝ) / 2, 1 / 2]
        = [(cexRunFit [0], 1 / 2), (cexRunFit [1], 1 / 2)] from rfl, sweepGo_aps_init]
    simp [cexRunFit]
    rw [show (1 : ℝ) + 1 = 2 by norm_num, Real.exp_log (by norm_num : (0 : ℝ) < 2)]
    norm_num
  have harr1 : arraySplit [[(0 : ℝ)], [1]] 2 = [[[0]], [[1]]] := by
    norm_num [arraySplit, splitSizes, chop, List.range_succ]
  have harr2 : arraySplit [(1 : ℝ) / 2, 1 / 2] 2 = [[1 / 2], [1 / 2]] := by
    norm_num [arraySplit, splitSizes, chop, List.range_succ]
  have hpar_eq : parallelRun false cexRunFit [[(0 : ℝ)], [1]] [(1 : ℝ) / 2, 1 / 2] 2
      = [sweepGo false [(cexRunFit [0], 1 / 2)] initSweepState,
         sweepGo false [(cexRunFit [1], 1 / 2)] initSweepState].foldl
          (mergeSub false) initSweepState := by
    rw [parallelRun, harr1, harr2]
    rfl
  have hS1 : ∀ g, (sweepGo false [(cexRunFit [(0 : ℝ)], (1 : ℝ) / 2)]
      initSweepState).averagePosteriorSequence 0 g
        = (if g = 0 then (1 : ℝ) / 2 else 0) := by
    intro g
    rw [sweepGo_aps_init]
    by_cases hg : g = 0 <;> simp [cexRunFit, hg]
  have hS2 : ∀ g, (sweepGo false [(cexRunFit [(1 : ℝ)], (1 : ℝ) / 2)]
      initSweepState).averagePosteriorSequence 0 g
        = (if g = 0 then 0 else (1 : ℝ) / 2) := by
    intro g
    rw [sweepGo_aps_init]
    by_cases hg : g = 0 <;> simp [cexRunFit, hg]
  have hp00 : (parallelRun false cexRunFit [[(0 : ℝ)], [1]]
      [(1 : ℝ) / 2, 1 / 2] 2).averagePosteriorSequence 0 0 = 1 / 2 := by
    rw [hpar_eq, mergeFold_aps]
    simp only [List.map_cons, List.map_nil, List.sum_cons, List.sum_nil]
    rw [hS1 0, hS2 0]
    norm_num [initSweepState]
  have hp01 : (parallelRun false cexRunFit [[(0 : ℝ)], [1]]
      [(1 : ℝ) / 2, 1 / 2] 2).averagePosteriorSequence 0 1 = 1 / 2 := by
    rw [hpar_eq, mergeFold_aps]
    simp only [List.map_cons, List.map_nil, List.sum_cons, List.sum_nil]
    rw [hS1 1, hS2 1]
    norm_num [initSweepState]
  have hparv : normalizeAPS 2 (parallelRun false cexRunFit [[(0 : ℝ)], [1]]
      [(1 : ℝ) / 2, 1 / 2] 2).averagePosteriorSequence 0 0 = 1 / 2 := by
    simp only [normalizeAPS]
    rw [Finset.sum_range_succ, Finset.sum_range_one, hp00, hp01]
    norm_num
  have hsinv : normalizeAPS 2 (sweepRun false cexRunFit [[(0 : ℝ)], [1]]
      [(1 : ℝ) / 2, 1 / 2]).averagePosteriorSequence 0 0 = 1 / 3 := by
    simp only [normalizeAPS]
    rw [Finset.sum_range_succ, Finset.sum_range_one, hs00, hs01]
    norm_num
  rw [hparv, hsinv]
  norm_num

/-- Witness for the amended claim C1 at a concrete input: two grid points
with identical log-evidences (so every shard's anchor equals the global
one), uniform prior, two workers. -/
theorem parallel_split_merge_witness :
    ((1 : ℕ) ≤ 2) ∧ ([(0 : ℝ), 0].length = [[(0 : ℝ)], [1]].length)
    ∧ ((parallelRun false (fun _ => FitResult.mk 0 (fun _ => 0) fun _ _ => 0)
          [[0], [1]] [0, 0] 2).logEvidenceList
        = (sweepRun false (fun _ => FitResult.mk 0 (fun _ => 0) fun _ _ => 0)
            [[0], [1]] [0, 0]).logEvidenceList)
    ∧ ((parallelRun false (fun _ => FitResult.mk 0 (fun _ => 0) fun _ _ => 0)
          [[0], [1]] [0, 0] 2).averagePosteriorSequence
        = (sweepRun false (fun _ => FitResult.mk 0 (fun _ => 0) fun _ _ => 0)
            [[0], [1]] [0, 0]).averagePosteriorSequence) := by
  have h := parallel_split_merge (fun _ => FitResult.mk 0 (fun _ => 0) fun _ _ => 0)
    [[0], [1]] [0, 0] [1] false 2 1 (by norm_num) (by simp)
  refine ⟨by norm_num, by simp, h.1, (h.2.2.2.2 ?_).1⟩
  intro sh hsh hne
  have harr : arraySplit ([[(0 : ℝ)], [1]].map fun x =>
      ((fun _ : List ℝ => FitResult.mk (0 : ℝ) (fun _ => 0) fun _ _ => 0) x).logEvidence) 2
      = [[0], [0]] := by
    norm_num [arraySplit, splitSizes, chop, List.range_succ]
  rw [harr] at hsh
  have hsh' : sh = [0] := by
    rcases List.mem_cons.1 hsh with h1 | h1
    · exact h1
    · simpa using h1
  rw [hsh']
  rfl

end
